import Mathlib

/-!
Verification of the block-and-state execution core of `serenity_blocks.py`
(janx/pyethereum): the journaled `State`, `Block` structural validation,
`apply_msg`, `tx_state_transition` and the RNG-seed update of
`block_state_transition`, shallowly embedded in Lean.

Byte strings are modelled as `List Nat` (one entry per byte).  External
collaborators (keccak `sha3`, the shard-address helpers of `utils.py`, the
well-known addresses of `config.py`, the specials registry and the VM) are
modelled as parameters: they are bundled in a `Config` record, and the
specials-or-VM dispatch of `apply_msg` is a `Runner` function argument.
-/

abbrev Bytes := List Nat

/-- Pointwise function update, used to model Python `dict` assignment. -/
def fupd [DecidableEq α] (f : α → β) (x : α) (v : β) : α → β :=
  fun y => if y = x then v else f y

/-- `utils.big_endian_to_int`: big-endian bytes to an unbounded integer. -/
def big_endian_to_int (b : Bytes) : Nat :=
  b.foldl (fun acc d => acc * 256 + d) 0

/-- Big-endian digit expansion with an explicit fuel argument (the fuel is
always taken `≥` the number of base-256 digits, see `encode_int`). -/
def beAux : Nat → Nat → Bytes
  | 0, _ => []
  | _ + 1, 0 => []
  | f + 1, n + 1 => beAux f ((n + 1) / 256) ++ [(n + 1) % 256]

/-- `utils.encode_int`: minimal big-endian encoding, `encode_int 0 = []`. -/
def encode_int (n : Nat) : Bytes := beAux n n

/-- `utils.zpad` to 32 bytes (longer inputs are returned unchanged, as in
the source). -/
def zpad32 (b : Bytes) : Bytes := List.replicate (32 - b.length) 0 ++ b

/-- `utils.encode_int32`: 32-byte big-endian encoding. -/
def encode_int32 (n : Nat) : Bytes := zpad32 (encode_int n)

/-- Decimal digit expansion with fuel, for Python `str(value)`. -/
def decAux : Nat → Nat → Bytes
  | 0, _ => []
  | _ + 1, 0 => []
  | f + 1, n + 1 => decAux f ((n + 1) / 10) ++ [(n + 1) % 10 + 48]

/-- Python `str` of a non-negative integer, as ASCII bytes. -/
def strOfNat (n : Nat) : Bytes := if n = 0 then [48] else decAux n n

/-! ### RLP (external canonical serializer, modelled by standard RLP) -/

/-- RLP encoding of a byte string. -/
def rlp_encode_bytes (b : Bytes) : Bytes :=
  match b with
  | [d] => if d < 128 then [d] else [129, d]
  | _ =>
    if b.length < 56 then (128 + b.length) :: b
    else
      let lenb := encode_int b.length
      (183 + lenb.length) :: (lenb ++ b)

/-- RLP list header over an already-encoded payload. -/
def rlp_encode_payload (payload : Bytes) : Bytes :=
  if payload.length < 56 then (192 + payload.length) :: payload
  else
    let lenb := encode_int payload.length
    (247 + lenb.length) :: (lenb ++ payload)

/-- RLP encoding of a list of byte strings. -/
def rlp_encode_list (items : List Bytes) : Bytes :=
  rlp_encode_payload (items.foldr (fun i acc => rlp_encode_bytes i ++ acc) [])

/-- Strip the list header of an RLP-encoded list, recovering its payload. -/
def rlp_payload (b : Bytes) : Bytes :=
  match b with
  | [] => []
  | h :: t => if h < 248 then t else t.drop (h - 247)

/-- `rlp.insert(lst, 0, item)`: prepend an item to an RLP-encoded list. -/
def rlp_insert0 (lst item : Bytes) : Bytes :=
  rlp_encode_payload (rlp_encode_bytes item ++ rlp_payload lst)

/-- `RLPEMPTYLIST = rlp.encode([])`. -/
def RLPEMPTYLIST : Bytes := rlp_encode_list []

/-! ### The journaled State

`State.cache` is a Python dict of dicts; we model the pair of levels by a
single partial lookup `cacheGet` together with the updater `cacheSet`
(`cacheSet` auto-creates the per-address dict; in the source the address
entry is always present when a journal entry is replayed, since
`set_storage` first runs `get_storage`, which creates it).  The journal is
stored most-recent-first: the source appends to and pops from the end of a
Python list, which corresponds to `cons` and head-matching here.  The
backing key/value store `db` carries the content-addressed code blobs; it
is deliberately outside the journal, as in the source. -/

abbrev Cache := Bytes → Option (Bytes → Option Bytes)

abbrev ModifiedMap := Bytes → Option (Bytes → Bool)

/-- A journal entry: a point update `(addr, key, prior_value)` or a commit
marker `('~root', (cache, modified), prior_root)` (the prior root hash is
modelled by the prior trie contents themselves: the trie is
content-addressed, so restoring the root hash restores the contents). -/
inductive JEntry where
  | upd (a k pre : Bytes)
  | root (cache : Cache) (modified : ModifiedMap) (trie : Bytes → Bytes → Bytes)

structure EthState where
  trie : Bytes → Bytes → Bytes
  cache : Cache
  modified : ModifiedMap
  journal : List JEntry
  db : List (Bytes × Bytes)

/-- Two-level cache lookup. -/
def cacheGet (c : Cache) (a k : Bytes) : Option Bytes :=
  match c a with
  | some m => m k
  | none => none

/-- Two-level cache update `cache[addr][k] = v` (auto-creating the
per-address dict, see the note above). -/
def cacheSet (c : Cache) (a k : Bytes) (v : Bytes) : Cache :=
  match c a with
  | some m => fupd c a (some (fupd m k (some v)))
  | none => fupd c a (some (fun k' => if k' = k then some v else none))

/-- Does `modified` record `(a, k)`? -/
def modHas (m : ModifiedMap) (a k : Bytes) : Bool :=
  match m a with
  | some f => f k
  | none => false

/-- `modified.setdefault(addr, {})[k] = True`. -/
def modSet (m : ModifiedMap) (a k : Bytes) : ModifiedMap :=
  match m a with
  | some f => fupd m a (some (fupd f k true))
  | none => fupd m a (some (fun k' => if k' = k then true else false))

/-- `State.get_storage` (keys and values already canonicalized to bytes by
the call sites).  Returns the value and the state with the read memoized:
in the source, a cache miss reads the account storage trie and stores the
result into the cache. -/
def get_storage (s : EthState) (a k : Bytes) : Bytes × EthState :=
  match cacheGet s.cache a k with
  | some v => (v, s)
  | none => (s.trie a k, { s with cache := cacheSet s.cache a k (s.trie a k) })

/-- The value `get_storage` returns, as a pure observation. -/
def peek (s : EthState) (a k : Bytes) : Bytes :=
  match cacheGet s.cache a k with
  | some v => v
  | none => s.trie a k

/-- `State.set_storage`: journal the prior value (observed via
`get_storage`, which memoizes), update the cache, mark modified. -/
def set_storage (s : EthState) (a k v : Bytes) : EthState :=
  let g := get_storage s a k
  { g.2 with
    cache := cacheSet g.2.cache a k v,
    modified := modSet g.2.modified a k,
    journal := JEntry.upd a k g.1 :: g.2.journal }

/-- `State.commit`: fold every modified cached key whose value differs
from the trie value into the trie, push a commit marker holding the
pre-commit cache, modified set and trie, and clear cache/modified. -/
def commit (s : EthState) : EthState :=
  { trie := fun a k =>
      match cacheGet s.cache a k with
      | some v => if modHas s.modified a k = true ∧ v ≠ s.trie a k then v else s.trie a k
      | none => s.trie a k,
    cache := fun _ => none,
    modified := fun _ => none,
    journal := JEntry.root s.cache s.modified s.trie :: s.journal,
    db := s.db }

/-- `State.snapshot`: the current journal length. -/
def snapshot (s : EthState) : Nat := s.journal.length

/-- Replay one popped journal entry (the body of `State.revert`'s loop). -/
def applyEntry (s : EthState) (e : JEntry) : EthState :=
  match e with
  | JEntry.upd a k pre => { s with cache := cacheSet s.cache a k pre }
  | JEntry.root c m t => { s with cache := c, modified := m, trie := t }

/-- `while len(journal) > snap: pop and replay`, structurally on the
journal list. -/
def revertAux : EthState → List JEntry → Nat → EthState
  | s, [], _ => { s with journal := [] }
  | s, e :: rest, snap =>
    if rest.length + 1 > snap then revertAux (applyEntry s e) rest snap
    else { s with journal := e :: rest }

/-- `State.revert`. -/
def revert (s : EthState) (snap : Nat) : EthState :=
  revertAux s s.journal snap

/-- An abstract storage operation, used to quantify over the sequences of
`State` calls a client (or the VM, through its façade) may perform. -/
inductive Op where
  | set (a k v : Bytes)
  | get (a k : Bytes)
  | commit

def applyOp (s : EthState) : Op → EthState
  | Op.set a k v => set_storage s a k v
  | Op.get a k => (get_storage s a k).2
  | Op.commit => commit s

def applyOps (s : EthState) (ops : List Op) : EthState :=
  ops.foldl applyOp s

/-! ### External collaborators

`config.py`, `utils.py` and `serenity_transactions.py` are repository code
that is not under `src/`; keccak, the trie, the RLP library, the specials
registry and the VM are external.  Modelled from the spec: addresses carry
a shard id in their leading bytes (`get_shard`, `shardify`, `match_shard`,
spec §3), the well-known system addresses and execution-state slot indices
are fixed distinct constants (spec §3), and `sha3` is an opaque 32-byte
digest (spec §6).  All of them are bundled as abstract fields of a
`Config` record. -/

structure Config where
  sha3 : Bytes → Bytes
  shardify : Bytes → Nat → Bytes
  get_shard : Bytes → Nat
  match_shard : Bytes → Bytes → Bytes
  EXECUTION_STATE : Bytes
  LOG : Bytes
  ETHER : Bytes
  RNGSEEDS : Bytes
  CASPER : Bytes
  NULL_SENDER : Bytes
  UNHASH_MAGIC_BYTES : Bytes
  TXINDEX : Nat
  GAS_REMAINING : Nat
  TXGAS : Nat

/-- Modelled from the spec: `Transaction` (`serenity_transactions.py` is
not under `src/`); the fields are the ones spec §3 exposes. -/
structure Tx where
  addr : Bytes
  code : Bytes
  data : Bytes
  gas : Nat
  exec_gas : Nat
  intrinsic_gas : Nat
  left_bound : Nat
  right_bound : Nat
deriving DecidableEq

/-- A VM message.  `left_bound`/`right_bound` are omitted: the embedded
fragment never reads them.  `transfers_value` follows the pyethereum
message default (`True`); both messages built by `tx_state_transition`
carry `value = 0`, for which the transfer branch writes nothing either
way. -/
structure Msg where
  sender : Bytes
  toAddr : Bytes  -- `to` in the source (`to` is reserved in Lean)
  value : Nat
  gas : Nat
  data : Bytes
  transfers_value : Bool
deriving DecidableEq

/-- The two kinds of façade `apply_msg` can be called with: a `VMExt`
bound to the real state, or the distinguished `EmptyVMExt` whose reads
return `''` and whose writes are discarded. -/
inductive Facade where
  | real
  | empty
deriving DecidableEq

abbrev Triple := Nat × Nat × Bytes

/-- The process-wide `eve_cache` memo, as an association list (later
inserts shadow earlier ones, like Python dict assignment). -/
abbrev EveMap := List (Bytes × Triple)

def eveLookup : EveMap → Bytes → Option Triple
  | [], _ => none
  | (k', v) :: r, k => if k' = k then some v else eveLookup r k

def eveInsert (e : EveMap) (k : Bytes) (v : Triple) : EveMap :=
  (k, v) :: e

/-- `cache_key = msg.sender + msg.toAddr + str(msg.value) + msg.data.extract_all() + code`. -/
def cache_key (msg : Msg) (code : Bytes) : Bytes :=
  msg.sender ++ msg.toAddr ++ strOfNat msg.value ++ msg.data ++ code

/-- The specials-or-VM dispatch of `apply_msg` (lines 428-432: the
built-in at `int(msg.toAddr)` if registered, else `vm.vm_execute`), as an
abstract function.  It acts through the façade, so it receives the façade
and the state, may reentrantly extend the `eve_cache`, and returns the
`(status, gas, data)` triple together with the state and memo it leaves
behind. -/
abbrev Runner := Facade → EthState → EveMap → Msg → Bytes → Triple × EthState × EveMap

/-- `ext.get_storage`: the real façade reads the journaled state, the
empty façade returns `''` and leaves everything unchanged. -/
def extGet (fac : Facade) (s : EthState) (a k : Bytes) : Bytes × EthState :=
  match fac with
  | Facade.real => get_storage s a k
  | Facade.empty => ([], s)

/-- `ext.set_storage`: discarded by the empty façade. -/
def extSet (fac : Facade) (s : EthState) (a k v : Bytes) : EthState :=
  match fac with
  | Facade.real => set_storage s a k v
  | Facade.empty => s

/-- `ext._state.revert`: the empty façade's `_state` is a throwaway, so
reverting it does not touch the real state. -/
def extRevert (fac : Facade) (s : EthState) (snap : Nat) : EthState :=
  match fac with
  | Facade.real => revert s snap
  | Facade.empty => s

/-- The tail of `apply_msg` after the value transfer: dispatch, revert on
status 0, unconditionally memoize `(res, gas if res else 0, dat)` into
`eve_cache`, and return that triple. -/
def apply_msg_finish (_cfg : Config) (runner : Runner) (fac : Facade) (s : EthState)
    (eve : EveMap) (msg : Msg) (code key : Bytes) (snap : Nat) :
    Triple × EthState × EveMap :=
  let r := runner fac s eve msg code
  let res := r.1.1
  let s3 := if res = 0 then extRevert fac r.2.1 snap else r.2.1
  let out : Triple := (res, if res ≠ 0 then r.1.2.1 else 0, r.1.2.2)
  (out, s3, eveInsert r.2.2 key out)

/-- The body of `apply_msg` past the pure-call cache check: snapshot,
transfer value (instaquit on insufficient balance, returning
`(1, msg.gas, [])`), then `apply_msg_finish`. -/
def apply_msg_core (cfg : Config) (runner : Runner) (fac : Facade) (s : EthState)
    (eve : EveMap) (msg : Msg) (code key : Bytes) : Triple × EthState × EveMap :=
  let sETH := cfg.match_shard cfg.ETHER msg.sender
  let rETH := cfg.match_shard cfg.ETHER msg.toAddr
  let snap := s.journal.length
  if msg.transfers_value then
    let g1 := extGet fac s sETH msg.sender
    if big_endian_to_int g1.1 < msg.value then
      ((1, msg.gas, []), g1.2, eve)
    else if msg.value ≠ 0 then
      let g2 := extGet fac g1.2 sETH msg.sender
      let s3 := extSet fac g2.2 sETH msg.sender (encode_int32 (big_endian_to_int g2.1 - msg.value))
      let g3 := extGet fac s3 rETH msg.toAddr
      let s5 := extSet fac g3.2 rETH msg.toAddr (encode_int32 (big_endian_to_int g3.1 + msg.value))
      apply_msg_finish cfg runner fac s5 eve msg code key snap
    else apply_msg_finish cfg runner fac g1.2 eve msg code key snap
  else apply_msg_finish cfg runner fac s eve msg code key snap

/-- `apply_msg` (lines 412-445).  The pure-call memo is consulted only
when `ext is EmptyVMExt`; the write into it at the end of
`apply_msg_finish` happens on every completed call. -/
def apply_msg (cfg : Config) (runner : Runner) (fac : Facade) (s : EthState)
    (eve : EveMap) (msg : Msg) (code : Bytes) : Triple × EthState × EveMap :=
  let key := cache_key msg code
  if fac = Facade.empty then
    match eveLookup eve key with
    | some t => (t, s, eve)
    | none => apply_msg_core cfg runner fac s eve msg code key
  else apply_msg_core cfg runner fac s eve msg code key

/-- Lookup in the backing KV store (missing keys yield `''`; on the
modelled paths `get_code` only reads keys `put_code` wrote). -/
def dbGet : List (Bytes × Bytes) → Bytes → Bytes
  | [], _ => []
  | (k', v) :: r, k => if k' = k then v else dbGet r k

/-- `put_code`: store the blob content-addressed under the magic prefix
and record the code hash in the account's empty-key slot. -/
def put_code (cfg : Config) (s : EthState) (addr code : Bytes) : EthState :=
  let codehash := cfg.sha3 code
  let s1 := { s with db := (cfg.UNHASH_MAGIC_BYTES ++ codehash, code) :: s.db }
  set_storage s1 addr [] codehash

/-- `get_code`: read the code-hash slot and unhash it, `''` when the
account has no code. -/
def get_code (cfg : Config) (s : EthState) (addr : Bytes) : Bytes × EthState :=
  let g := get_storage s addr []
  if g.1 ≠ [] then (dbGet g.2.db (cfg.UNHASH_MAGIC_BYTES ++ g.1), g.2) else ([], g.2)

/-- The two `assert` statements of the final part of
`tx_state_transition`: the log-placeholder check (line 354) and the gas
bounds check (line 357). -/
inductive AssertTag where
  | logAssert
  | gasAssert
deriving DecidableEq

/-- Lines 352-365 of `tx_state_transition`: the final execution step.
`gas_remaining - tx.exec_gas` uses truncating `Nat` subtraction, but every
call site has passed the `gas_remaining < tx.exec_gas` skip check, so it
agrees with Python's int arithmetic. -/
def tx_final_step (cfg : Config) (runner : Runner) (s : EthState) (eve : EveMap) (tx : Tx)
    (EXSTATE LOGA : Bytes) (txindex gas_remaining execution_start_gas : Nat) :
    Except AssertTag (Option Bytes × EthState × EveMap) :=
  let msg : Msg :=
    { sender := cfg.NULL_SENDER, toAddr := tx.addr, value := 0,
      gas := execution_start_gas, data := tx.data, transfers_value := true }
  let gA := get_storage s LOGA (encode_int32 txindex)
  if gA.1 ≠ RLPEMPTYLIST then Except.error AssertTag.logAssert
  else
    let gc := get_code cfg gA.2 tx.addr
    let r := apply_msg cfg runner Facade.real gc.2 eve msg gc.1
    if ¬ (r.1.2.1 ≤ execution_start_gas ∧ execution_start_gas ≤ tx.exec_gas) then
      Except.error AssertTag.gasAssert
    else
      let s4 := set_storage r.2.1 EXSTATE (encode_int32 cfg.GAS_REMAINING)
        (encode_int32 (gas_remaining - tx.exec_gas + r.1.2.1))
      let gl := get_storage s4 LOGA (encode_int32 txindex)
      let s5 := set_storage gl.2 LOGA (encode_int32 txindex)
        (rlp_insert0 gl.1 (encode_int (if r.1.1 ≠ 0 then 2 else 1)))
      let s6 := set_storage s5 EXSTATE (encode_int32 cfg.TXINDEX) (encode_int32 (txindex + 1))
      Except.ok (some r.1.2.2, s6, r.2.2)

/-- `tx_state_transition` (lines 313-365). -/
def tx_state_transition (cfg : Config) (runner : Runner) (s : EthState) (eve : EveMap)
    (tx : Tx) (left_bound right_bound : Nat) (override_gas : Nat) :
    Except AssertTag (Option Bytes × EthState × EveMap) :=
  let EXSTATE := cfg.shardify cfg.EXECUTION_STATE left_bound
  let LOGA := cfg.shardify cfg.LOG left_bound
  let g1 := get_storage s EXSTATE (encode_int32 cfg.TXINDEX)
  let txindex := big_endian_to_int g1.1
  let g2 := get_storage g1.2 EXSTATE (encode_int32 cfg.GAS_REMAINING)
  let gas_remaining := big_endian_to_int g2.1
  if gas_remaining < tx.exec_gas then
    let s3 := set_storage g2.2 LOGA (encode_int32 txindex) (rlp_encode_list [encode_int 0])
    let s4 := set_storage s3 EXSTATE (encode_int32 cfg.TXINDEX) (encode_int32 (txindex + 1))
    Except.ok (none, s4, eve)
  else if ¬ (left_bound ≤ cfg.get_shard tx.addr ∧ cfg.get_shard tx.addr < right_bound) then
    let s3 := set_storage g2.2 LOGA (encode_int32 txindex) (rlp_encode_list [encode_int 0])
    let s4 := set_storage s3 EXSTATE (encode_int32 cfg.TXINDEX) (encode_int32 (txindex + 1))
    Except.ok (none, s4, eve)
  else
    let s3 := set_storage g2.2 EXSTATE (encode_int32 cfg.TXGAS) (encode_int32 tx.gas)
    let s4 := set_storage s3 LOGA (encode_int32 txindex) RLPEMPTYLIST
    if tx.code ≠ [] then
      let g3 := get_storage s4 tx.addr []
      if g3.1 = [] then
        let dmsg : Msg :=
          { sender := cfg.NULL_SENDER, toAddr := tx.addr, value := 0,
            gas := min tx.exec_gas override_gas, data := [], transfers_value := true }
        let r := apply_msg cfg runner Facade.real g3.2 eve dmsg tx.code
        if r.1.1 = 0 then
          let s5 := set_storage r.2.1 LOGA (encode_int32 txindex) (rlp_encode_list [encode_int 1])
          let s6 := set_storage s5 EXSTATE (encode_int32 cfg.TXINDEX) (encode_int32 (txindex + 1))
          Except.ok (none, s6, r.2.2)
        else
          let s5 := put_code cfg r.2.1 tx.addr r.1.2.2
          tx_final_step cfg runner s5 r.2.2 tx EXSTATE LOGA txindex gas_remaining r.1.2.1
      else
        tx_final_step cfg runner g3.2 eve tx EXSTATE LOGA txindex gas_remaining
          (min tx.exec_gas override_gas)
    else
      tx_final_step cfg runner s4 eve tx EXSTATE LOGA txindex gas_remaining
        (min tx.exec_gas override_gas)

/-- Lines 296-301 of `block_state_transition`: the RNG-seed update.  The
seed value passed to `set_storage` is an int, canonicalized by
`encode_int32` as in `State.set_storage`. -/
def update_rng_seed (cfg : Config) (s : EthState) (blknumber : Nat) (blkproposer : Bytes) :
    EthState :=
  let pr :=
    if blknumber ≠ 0 then get_storage s cfg.RNGSEEDS (encode_int32 (blknumber - 1))
    else (List.replicate 32 0, s)
  let mix := big_endian_to_int (cfg.sha3 (pr.1 ++ blkproposer))
  let cas := get_storage pr.2 cfg.CASPER (encode_int32 0)
  let newseed := mix - mix % 2 ^ 64 + big_endian_to_int cas.1
  set_storage cas.2 cfg.RNGSEEDS (encode_int32 blknumber) (encode_int32 newseed)

/-! ### Block structural validation (explicit mode of `Block.__init__`) -/

structure Summary where
  gas_limit : Nat
  left_bound : Nat
  right_bound : Nat
  transaction_hash : Bytes

/-- The intrinsic gas assigned to a summary inside the zip loop:
`sum([tx.intrinsic_gas for tx in g])`. -/
def groupIntrinsic (g : List Tx) : Nat :=
  g.foldr (fun tx acc => tx.intrinsic_gas + acc) 0

/-- The per-pair assertions of the `zip(summaries, transaction_groups)`
loop (lines 78-91), with the running `prevright` accumulator.  A `false`
records that construction fails; when `right_bound = left_bound` Python
raises `ZeroDivisionError` instead of an `AssertionError`, and here either
the modulus conjunct or the `left < right` conjunct is false, so `false`
faithfully records the failure. -/
def pairChecks (MAXSHARDS : Nat) (groupHash : List Tx → Bytes) :
    Nat → List (Summary × List Tx) → Bool
  | _, [] => true
  | prevright, (s, g) :: rest =>
    decide (s.transaction_hash = groupHash g) &&
    decide (s.left_bound % (s.right_bound - s.left_bound) = 0) &&
    decide (prevright ≤ s.left_bound ∧ s.left_bound < s.right_bound ∧
      s.right_bound ≤ MAXSHARDS) &&
    g.all (fun tx => decide (s.left_bound ≤ tx.left_bound ∧
      tx.left_bound < tx.right_bound ∧ tx.right_bound ≤ s.right_bound)) &&
    pairChecks MAXSHARDS groupHash s.right_bound rest

/-- Explicit-mode `Block.__init__` (lines 76-96) as a predicate: `true`
iff construction succeeds.  `groupHash`/`summariesHash` stand for
`sha3(rlp.encode(·))` on a transaction group resp. the summary list.  The
gas-limit sum reads `s.intrinsic_gas` of every summary, but the attribute
is only assigned for summaries paired with a group by `zip`; with more
summaries than groups the sum raises `AttributeError`, recorded by the
length conjunct.  When all summaries are zipped the sum ranges over the
zip. -/
def block_checks (MAXSHARDS GASLIMIT : Nat) (groupHash : List Tx → Bytes)
    (summariesHash : List Summary → Bytes) (txroot : Bytes)
    (summaries : List Summary) (groups : List (List Tx)) : Bool :=
  pairChecks MAXSHARDS groupHash 0 (summaries.zip groups) &&
  decide (summaries.length ≤ groups.length) &&
  decide (((summaries.zip groups).foldr (fun p acc => groupIntrinsic p.2 + acc) 0) < GASLIMIT) &&
  decide (txroot = summariesHash summaries)

/-- Is `n` a power of two? -/
def isPow2 (n : Nat) : Bool :=
  (List.range (n + 1)).any (fun k => decide (2 ^ k = n))

/-! ### Concrete instances used by witnesses and counterexamples -/

/-- The all-empty state. -/
def emptyState : EthState :=
  { trie := fun _ _ => [], cache := fun _ => none, modified := fun _ => none,
    journal := [], db := [] }

/-- A toy configuration with distinct well-known addresses and slots. -/
def cfgT : Config :=
  { sha3 := fun _ => [5],
    shardify := fun base _ => base,
    get_shard := fun _ => 0,
    match_shard := fun base _ => base,
    EXECUTION_STATE := [10],
    LOG := [11],
    ETHER := [12],
    RNGSEEDS := [13],
    CASPER := [14],
    NULL_SENDER := [0],
    UNHASH_MAGIC_BYTES := [255],
    TXINDEX := 0,
    GAS_REMAINING := 1,
    TXGAS := 2 }

/-- A state whose shard-0 execution-state account has 100 gas remaining. -/
def stateT : EthState :=
  { emptyState with
    trie := fun a k => if a = [10] ∧ k = encode_int32 1 then encode_int32 100 else [] }

/-- A state whose shard-0 log slot 0 already holds `RLPEMPTYLIST` and
whose execution-state account has 100 gas remaining. -/
def stateLogT : EthState :=
  { emptyState with
    trie := fun a k =>
      if a = [11] ∧ k = encode_int32 0 then RLPEMPTYLIST
      else if a = [10] ∧ k = encode_int32 1 then encode_int32 100 else [] }

/-- A runner that succeeds with status 2 and no state effect. -/
def runnerOk : Runner := fun _ s e _ _ => ((2, 1, []), s, e)

/-- A runner that returns the soft-failure status 1 (gas 3) with no state
effect. -/
def runnerSoft : Runner := fun _ s e _ _ => ((1, 3, []), s, e)

/-- A runner that reverts (status 0) after one storage write. -/
def runnerRevert : Runner := fun _ s e _ _ => ((0, 0, []), set_storage s [1] [2] [3], e)

/-- A runner that writes `RLPEMPTYLIST` into the shard-0 log slot 0 and
succeeds, returning code bytes `[7]`. -/
def runnerLogSame : Runner :=
  fun _ s e _ _ => ((2, 4, [7]), set_storage s [11] (encode_int32 0) RLPEMPTYLIST, e)

/-- A runner that writes `[9]` into the shard-0 log slot 0 and succeeds,
returning code bytes `[7]`. -/
def runnerLogOther : Runner :=
  fun _ s e _ _ => ((2, 4, [7]), set_storage s [11] (encode_int32 0) [9], e)

/-- A plain non-transferring message. -/
def msgPlain : Msg :=
  { sender := [3], toAddr := [4], value := 0, gas := 7, data := [], transfers_value := false }

/-- A value-transferring message (value 1, gas 5). -/
def msgVal : Msg :=
  { sender := [3], toAddr := [4], value := 1, gas := 5, data := [], transfers_value := true }

/-- A plain transaction calling account `[20]` (no code deployment). -/
def txPlain : Tx :=
  { addr := [20], code := [], data := [], gas := 1, exec_gas := 10,
    intrinsic_gas := 0, left_bound := 0, right_bound := 1 }

/-- A deployment transaction for account `[20]` with init code `[1]`. -/
def txDeploy : Tx :=
  { addr := [20], code := [1], data := [], gas := 1, exec_gas := 10,
    intrinsic_gas := 0, left_bound := 0, right_bound := 1 }

/-- Outcome projection for `tx_state_transition` results: the returned
data, one storage observation and one memo lookup. -/
def txOutcome (r : Except AssertTag (Option Bytes × EthState × EveMap)) (a k key : Bytes) :
    Option (Option Bytes × Bytes × Option Triple) :=
  match r with
  | Except.ok (d, s, e) => some (d, peek s a k, eveLookup e key)
  | Except.error _ => none

/-- Observational equivalence of two states for everything `revert` is
required to restore: the trie contents and every `get_storage`
observation (the journal and the `modified` markers are bookkeeping). -/
def CoreSim (s t : EthState) : Prop :=
  (∀ a k, s.trie a k = t.trie a k) ∧ ∀ a k, peek s a k = peek t a k

/-- Well-formedness of the `eve_cache`: every memoized triple with status
0 carries gas 0.  Every triple `apply_msg` inserts satisfies this, and the
process starts with an empty memo. -/
def eveWF (e : EveMap) : Prop :=
  ∀ k t, eveLookup e k = some t → t.1 = 0 → t.2.1 = 0

/-- `t` is reachable from `s` by some sequence of storage operations
performed through the `State` interface (this is how the VM, the specials
and `apply_msg` itself touch the state: only via the façade's
`get_storage`/`set_storage`, plus `commit`). -/
def Reaches (s t : EthState) : Prop :=
  ∃ ops, t = applyOps s ops

/-! ## Lemmas about the journaled state -/

theorem cacheGet_cacheSet (c : Cache) (a k v a' k' : Bytes) :
    cacheGet (cacheSet c a k v) a' k' =
      if a' = a ∧ k' = k then some v else cacheGet c a' k' := by
  unfold cacheGet cacheSet fupd
  cases hc : c a with
  | some m =>
    by_cases ha : a' = a
    · subst ha
      by_cases hk : k' = k <;> simp [hk, fupd, hc]
    · simp [ha, hc]
  | none =>
    by_cases ha : a' = a
    · subst ha
      by_cases hk : k' = k <;> simp [hk, hc]
    · simp [ha, hc]

theorem get_storage_fst (s : EthState) (a k : Bytes) :
    (get_storage s a k).1 = peek s a k := by
  unfold get_storage peek
  cases cacheGet s.cache a k <;> rfl

theorem get_storage_journal (s : EthState) (a k : Bytes) :
    (get_storage s a k).2.journal = s.journal := by
  unfold get_storage
  cases cacheGet s.cache a k <;> rfl

theorem get_storage_trie (s : EthState) (a k : Bytes) :
    (get_storage s a k).2.trie = s.trie := by
  unfold get_storage
  cases cacheGet s.cache a k <;> rfl

theorem peek_get (s : EthState) (a k a' k' : Bytes) :
    peek (get_storage s a k).2 a' k' = peek s a' k' := by
  unfold get_storage
  cases h : cacheGet s.cache a k with
  | some v => rfl
  | none =>
    show peek { s with cache := cacheSet s.cache a k (s.trie a k) } a' k' = peek s a' k'
    unfold peek
    rw [show ({ s with cache := cacheSet s.cache a k (s.trie a k) } : EthState).cache
      = cacheSet s.cache a k (s.trie a k) from rfl, cacheGet_cacheSet]
    by_cases hak : a' = a ∧ k' = k
    · obtain ⟨h1, h2⟩ := hak
      subst h1; subst h2
      simp [h]
    · simp [hak]

theorem peek_set (s : EthState) (a k v a' k' : Bytes) :
    peek (set_storage s a k v) a' k' = if a' = a ∧ k' = k then v else peek s a' k' := by
  unfold set_storage peek
  rw [show (let g := get_storage s a k;
      ({ g.2 with
         cache := cacheSet g.2.cache a k v,
         modified := modSet g.2.modified a k,
         journal := JEntry.upd a k g.1 :: g.2.journal } : EthState)).cache
    = cacheSet (get_storage s a k).2.cache a k v from rfl, cacheGet_cacheSet]
  by_cases hak : a' = a ∧ k' = k
  · simp [hak]
  · have := peek_get s a k a' k'
    unfold peek at this
    simp only [hak, if_false]
    rw [show (let g := get_storage s a k;
        ({ g.2 with
           cache := cacheSet g.2.cache a k v,
           modified := modSet g.2.modified a k,
           journal := JEntry.upd a k g.1 :: g.2.journal } : EthState)).trie
      = (get_storage s a k).2.trie from rfl]
    simpa using this

theorem set_storage_journal (s : EthState) (a k v : Bytes) :
    (set_storage s a k v).journal = JEntry.upd a k (peek s a k) :: s.journal := by
  unfold set_storage
  rw [show (let g := get_storage s a k;
      ({ g.2 with
         cache := cacheSet g.2.cache a k v,
         modified := modSet g.2.modified a k,
         journal := JEntry.upd a k g.1 :: g.2.journal } : EthState)).journal
    = JEntry.upd a k (get_storage s a k).1 :: (get_storage s a k).2.journal from rfl]
  rw [get_storage_fst, get_storage_journal]

theorem set_storage_trie (s : EthState) (a k v : Bytes) :
    (set_storage s a k v).trie = s.trie := by
  unfold set_storage
  rw [show (let g := get_storage s a k;
      ({ g.2 with
         cache := cacheSet g.2.cache a k v,
         modified := modSet g.2.modified a k,
         journal := JEntry.upd a k g.1 :: g.2.journal } : EthState)).trie
    = (get_storage s a k).2.trie from rfl]
  exact get_storage_trie s a k

theorem peek_applyEntry_upd (s : EthState) (a k pre a' k' : Bytes) :
    peek (applyEntry s (JEntry.upd a k pre)) a' k' =
      if a' = a ∧ k' = k then pre else peek s a' k' := by
  unfold applyEntry peek
  rw [show ({ s with cache := cacheSet s.cache a k pre } : EthState).cache
    = cacheSet s.cache a k pre from rfl, cacheGet_cacheSet]
  by_cases hak : a' = a ∧ k' = k <;> simp [hak]

theorem coreSim_refl (s : EthState) : CoreSim s s :=
  ⟨fun _ _ => rfl, fun _ _ => rfl⟩

theorem coreSim_trans {s t u : EthState} (h1 : CoreSim s t) (h2 : CoreSim t u) :
    CoreSim s u :=
  ⟨fun a k => (h1.1 a k).trans (h2.1 a k), fun a k => (h1.2 a k).trans (h2.2 a k)⟩

theorem coreSim_journal (s : EthState) (j : List JEntry) :
    CoreSim { s with journal := j } s :=
  ⟨fun _ _ => rfl, fun _ _ => rfl⟩

theorem applyEntry_coreSim {s t : EthState} (e : JEntry) (h : CoreSim s t) :
    CoreSim (applyEntry s e) (applyEntry t e) := by
  cases e with
  | upd a k pre =>
    refine ⟨fun a' k' => h.1 a' k', fun a' k' => ?_⟩
    rw [peek_applyEntry_upd, peek_applyEntry_upd]
    by_cases hak : a' = a ∧ k' = k <;> simp [hak, h.2 a' k']
  | root c m t' =>
    exact ⟨fun _ _ => rfl, fun _ _ => rfl⟩

theorem foldl_applyEntry_coreSim {s t : EthState} (l : List JEntry) (h : CoreSim s t) :
    CoreSim (l.foldl applyEntry s) (l.foldl applyEntry t) := by
  induction l generalizing s t with
  | nil => exact h
  | cons e l ih => exact ih (applyEntry_coreSim e h)

theorem revertAux_stop (j : List JEntry) (s : EthState) (snap : Nat)
    (h : j.length ≤ snap) : revertAux s j snap = { s with journal := j } := by
  cases j with
  | nil => rfl
  | cons e rest =>
    unfold revertAux
    rw [if_neg]
    simpa using h

theorem revertAux_append (l : List JEntry) (s : EthState) (j : List JEntry) :
    revertAux s (l ++ j) j.length = { l.foldl applyEntry s with journal := j } := by
  induction l generalizing s with
  | nil => simpa using revertAux_stop j s j.length (le_refl _)
  | cons e l ih =>
    have hstep : revertAux s ((e :: l) ++ j) j.length
        = if (l ++ j).length + 1 > j.length
          then revertAux (applyEntry s e) (l ++ j) j.length
          else { s with journal := (e :: l) ++ j } := rfl
    rw [hstep, if_pos (by simp [List.length_append]; omega)]
    exact ih (applyEntry s e)

theorem applyOp_decomp (s : EthState) (op : Op) :
    ∃ l, (applyOp s op).journal = l ++ s.journal ∧
      CoreSim (l.foldl applyEntry (applyOp s op)) s := by
  cases op with
  | get a k =>
    refine ⟨[], ?_, ?_, ?_⟩
    · simpa using get_storage_journal s a k
    · intro a' k'
      show (get_storage s a k).2.trie a' k' = s.trie a' k'
      rw [get_storage_trie]
    · intro a' k'
      exact peek_get s a k a' k'
  | set a k v =>
    refine ⟨[JEntry.upd a k (peek s a k)], ?_, ?_, ?_⟩
    · simpa using set_storage_journal s a k v
    · intro a' k'
      show (applyEntry (set_storage s a k v) (JEntry.upd a k (peek s a k))).trie a' k'
        = s.trie a' k'
      show (set_storage s a k v).trie a' k' = s.trie a' k'
      rw [set_storage_trie]
    · intro a' k'
      show peek (applyEntry (set_storage s a k v) (JEntry.upd a k (peek s a k))) a' k'
        = peek s a' k'
      rw [peek_applyEntry_upd]
      by_cases hak : a' = a ∧ k' = k
      · obtain ⟨h1, h2⟩ := hak
        subst h1; subst h2
        simp
      · rw [if_neg hak, peek_set]
        rw [if_neg hak]
  | commit =>
    refine ⟨[JEntry.root s.cache s.modified s.trie], rfl, ?_, ?_⟩
    · intro a' k'
      rfl
    · intro a' k'
      rfl

theorem applyOps_journal (s : EthState) (ops : List Op) :
    ∃ l, (applyOps s ops).journal = l ++ s.journal := by
  induction ops generalizing s with
  | nil => exact ⟨[], rfl⟩
  | cons op ops ih =>
    obtain ⟨l1, hl1, _⟩ := applyOp_decomp s op
    obtain ⟨l2, hl2⟩ := ih (applyOp s op)
    refine ⟨l2 ++ l1, ?_⟩
    show (applyOps (applyOp s op) ops).journal = (l2 ++ l1) ++ s.journal
    rw [hl2, hl1, List.append_assoc]

theorem revert_applyOps_coreSim (ops : List Op) (s : EthState) :
    CoreSim (revert (applyOps s ops) s.journal.length) s := by
  induction ops generalizing s with
  | nil =>
    show CoreSim (revert s s.journal.length) s
    unfold revert
    rw [revertAux_stop s.journal s s.journal.length (le_refl _)]
    exact coreSim_journal s s.journal
  | cons op ops ih =>
    obtain ⟨l1, hl1, hsim1⟩ := applyOp_decomp s op
    obtain ⟨l2, hl2⟩ := applyOps_journal (applyOp s op) ops
    have hX : (applyOps s (op :: ops)) = applyOps (applyOp s op) ops := rfl
    set X := applyOps (applyOp s op) ops with hXdef
    have hXj : X.journal = (l2 ++ l1) ++ s.journal := by
      rw [hl2, hl1, List.append_assoc]
    -- the target revert, in normal form
    have htarget : revert X s.journal.length
        = { (l2 ++ l1).foldl applyEntry X with journal := s.journal } := by
      unfold revert
      rw [hXj]
      exact revertAux_append (l2 ++ l1) X s.journal
    -- the inductive hypothesis, in normal form
    have hIH := ih (applyOp s op)
    have hIHnf : revert X (applyOp s op).journal.length
        = { l2.foldl applyEntry X with journal := (applyOp s op).journal } := by
      unfold revert
      rw [hl2]
      exact revertAux_append l2 X (applyOp s op).journal
    rw [hIHnf] at hIH
    have hC : CoreSim (l2.foldl applyEntry X) (applyOp s op) :=
      coreSim_trans (coreSim_trans (coreSim_refl _) ⟨fun _ _ => rfl, fun _ _ => rfl⟩) hIH
    rw [hX, htarget]
    have h1 : CoreSim ((l2 ++ l1).foldl applyEntry X)
        (l1.foldl applyEntry (applyOp s op)) := by
      rw [List.foldl_append]
      exact foldl_applyEntry_coreSim l1 hC
    exact coreSim_trans (coreSim_trans ⟨fun _ _ => rfl, fun _ _ => rfl⟩ h1) hsim1

/-- C5: For every State `s`, taking `t0 = s.snapshot()`, then performing
any sequence of `set_storage` operations (with any interleaved `commit`
calls, whose commit markers are also unwound, and any `get_storage`
reads), then `s.revert(t0)`: every subsequent `get_storage (a, k)`
returns exactly the value it returned before `t0`. -/
theorem snapshot_revert_roundtrip (s : EthState) (ops : List Op) (a k : Bytes) :
    (get_storage (revert (applyOps s ops) (snapshot s)) a k).1 = (get_storage s a k).1 := by
  rw [get_storage_fst, get_storage_fst]
  exact (revert_applyOps_coreSim ops s).2 a k

/-! ## Integer encoding lemmas -/

theorem big_endian_to_int_append_digit (xs : Bytes) (d : Nat) :
    big_endian_to_int (xs ++ [d]) = 256 * big_endian_to_int xs + d := by
  unfold big_endian_to_int
  rw [List.foldl_append]
  simp [Nat.mul_comm]

theorem big_endian_to_int_beAux (f n : Nat) (h : n < 256 ^ f) :
    big_endian_to_int (beAux f n) = n := by
  induction f generalizing n with
  | zero =>
    interval_cases n
    rfl
  | succ f ih =>
    cases n with
    | zero => rfl
    | succ n =>
      show big_endian_to_int (beAux f ((n + 1) / 256) ++ [(n + 1) % 256]) = n + 1
      rw [big_endian_to_int_append_digit, ih]
      · exact Nat.div_add_mod (n + 1) 256
      · rw [Nat.div_lt_iff_lt_mul (by norm_num)]
        calc n + 1 < 256 ^ (f + 1) := h
        _ = 256 ^ f * 256 := by ring

theorem lt_pow256 (n : Nat) : n < 256 ^ n := by
  induction n with
  | zero => simp
  | succ n ih =>
    calc n + 1 ≤ 256 ^ n := ih
    _ < 256 ^ (n + 1) := by
        rw [pow_succ]
        omega

theorem big_endian_to_int_encode_int (n : Nat) :
    big_endian_to_int (encode_int n) = n :=
  big_endian_to_int_beAux n n (lt_pow256 n)

theorem big_endian_to_int_zeros (m : Nat) (b : Bytes) :
    big_endian_to_int (List.replicate m 0 ++ b) = big_endian_to_int b := by
  induction m with
  | zero => rfl
  | succ m ih =>
    show big_endian_to_int (0 :: (List.replicate m 0 ++ b)) = _
    unfold big_endian_to_int at ih ⊢
    simpa using ih

theorem big_endian_to_int_encode_int32 (n : Nat) :
    big_endian_to_int (encode_int32 n) = n := by
  unfold encode_int32 zpad32
  rw [big_endian_to_int_zeros]
  exact big_endian_to_int_encode_int n

/-! ## Reachability by storage operations -/

theorem reaches_refl (s : EthState) : Reaches s s :=
  ⟨[], rfl⟩

theorem reaches_get (s : EthState) (a k : Bytes) : Reaches s (get_storage s a k).2 :=
  ⟨[Op.get a k], rfl⟩

theorem reaches_set (s : EthState) (a k v : Bytes) : Reaches s (set_storage s a k v) :=
  ⟨[Op.set a k v], rfl⟩

theorem reaches_trans {s t u : EthState} (h1 : Reaches s t) (h2 : Reaches t u) :
    Reaches s u := by
  obtain ⟨ops1, h1⟩ := h1
  obtain ⟨ops2, h2⟩ := h2
  refine ⟨ops1 ++ ops2, ?_⟩
  rw [h2, h1]
  unfold applyOps
  rw [List.foldl_append]

theorem reaches_peek_revert {s t : EthState} (h : Reaches s t) (a k : Bytes) :
    peek (revert t s.journal.length) a k = peek s a k := by
  obtain ⟨ops, rfl⟩ := h
  exact (revert_applyOps_coreSim ops s).2 a k

/-! ## Lemmas about `apply_msg` -/

theorem apply_msg_finish_fst (cfg : Config) (runner : Runner) (fac : Facade) (s : EthState)
    (eve : EveMap) (msg : Msg) (code key : Bytes) (snap : Nat) :
    (apply_msg_finish cfg runner fac s eve msg code key snap).1
      = ((runner fac s eve msg code).1.1,
         if (runner fac s eve msg code).1.1 ≠ 0 then (runner fac s eve msg code).1.2.1 else 0,
         (runner fac s eve msg code).1.2.2) := rfl

theorem apply_msg_finish_state (cfg : Config) (runner : Runner) (fac : Facade) (s : EthState)
    (eve : EveMap) (msg : Msg) (code key : Bytes) (snap : Nat) :
    (apply_msg_finish cfg runner fac s eve msg code key snap).2.1
      = if (runner fac s eve msg code).1.1 = 0
        then extRevert fac (runner fac s eve msg code).2.1 snap
        else (runner fac s eve msg code).2.1 := rfl

theorem apply_msg_finish_memo (cfg : Config) (runner : Runner) (fac : Facade) (s : EthState)
    (eve : EveMap) (msg : Msg) (code key : Bytes) (snap : Nat) :
    eveLookup (apply_msg_finish cfg runner fac s eve msg code key snap).2.2 key
      = some (apply_msg_finish cfg runner fac s eve msg code key snap).1 := by
  show eveLookup (eveInsert _ key _) key = _
  unfold eveInsert eveLookup
  rw [if_pos rfl]
  rfl

theorem apply_msg_finish_gas0 (cfg : Config) (runner : Runner) (fac : Facade) (s : EthState)
    (eve : EveMap) (msg : Msg) (code key : Bytes) (snap : Nat)
    (h : (apply_msg_finish cfg runner fac s eve msg code key snap).1.1 = 0) :
    (apply_msg_finish cfg runner fac s eve msg code key snap).1.2.1 = 0 := by
  rw [apply_msg_finish_fst] at h ⊢
  simp only at h
  simp [h]

theorem apply_msg_finish_atomic (cfg : Config) (runner : Runner) (sT : EthState)
    (eve : EveMap) (msg : Msg) (code key : Bytes) (s : EthState)
    (hreach : Reaches s sT)
    (hrun : ∃ ops, (runner Facade.real sT eve msg code).2.1 = applyOps sT ops)
    (h0 : (runner Facade.real sT eve msg code).1.1 = 0) (a k : Bytes) :
    peek (apply_msg_finish cfg runner Facade.real sT eve msg code key
      s.journal.length).2.1 a k = peek s a k := by
  rw [apply_msg_finish_state, if_pos h0]
  show peek (revert (runner Facade.real sT eve msg code).2.1 s.journal.length) a k = _
  exact reaches_peek_revert (reaches_trans hreach hrun) a k

theorem apply_msg_core_gas0 (cfg : Config) (runner : Runner) (fac : Facade) (s : EthState)
    (eve : EveMap) (msg : Msg) (code key : Bytes)
    (h : (apply_msg_core cfg runner fac s eve msg code key).1.1 = 0) :
    (apply_msg_core cfg runner fac s eve msg code key).1.2.1 = 0 := by
  unfold apply_msg_core at h ⊢
  cases htv : msg.transfers_value with
  | false =>
    simp only [htv, Bool.false_eq_true, if_false] at h ⊢
    exact apply_msg_finish_gas0 _ _ _ _ _ _ _ _ _ h
  | true =>
    simp only [htv, if_true] at h ⊢
    by_cases hb : big_endian_to_int
        (extGet fac s (cfg.match_shard cfg.ETHER msg.sender) msg.sender).1 < msg.value
    · rw [if_pos hb] at h
      exact absurd h one_ne_zero
    · rw [if_neg hb] at h ⊢
      by_cases hv : msg.value ≠ 0
      · rw [if_pos hv] at h ⊢
        exact apply_msg_finish_gas0 _ _ _ _ _ _ _ _ _ h
      · rw [if_neg hv] at h ⊢
        exact apply_msg_finish_gas0 _ _ _ _ _ _ _ _ _ h

theorem apply_msg_core_memo (cfg : Config) (runner : Runner) (fac : Facade) (s : EthState)
    (eve : EveMap) (msg : Msg) (code key : Bytes)
    (hbal : msg.transfers_value = true →
      msg.value ≤ big_endian_to_int
        (extGet fac s (cfg.match_shard cfg.ETHER msg.sender) msg.sender).1) :
    eveLookup (apply_msg_core cfg runner fac s eve msg code key).2.2 key
      = some (apply_msg_core cfg runner fac s eve msg code key).1 := by
  unfold apply_msg_core
  cases htv : msg.transfers_value with
  | false =>
    simp only [htv, Bool.false_eq_true, if_false]
    exact apply_msg_finish_memo _ _ _ _ _ _ _ _ _
  | true =>
    simp only [htv, if_true]
    rw [if_neg (Nat.not_lt.mpr (hbal htv))]
    by_cases hv : msg.value ≠ 0
    · rw [if_pos hv]
      exact apply_msg_finish_memo _ _ _ _ _ _ _ _ _
    · rw [if_neg hv]
      exact apply_msg_finish_memo _ _ _ _ _ _ _ _ _

theorem apply_msg_core_atomic (cfg : Config) (runner : Runner) (s : EthState)
    (eve : EveMap) (msg : Msg) (code key : Bytes)
    (hrun : ∀ s' e', ∃ ops, (runner Facade.real s' e' msg code).2.1 = applyOps s' ops)
    (h0 : (apply_msg_core cfg runner Facade.real s eve msg code key).1.1 = 0) (a k : Bytes) :
    peek (apply_msg_core cfg runner Facade.real s eve msg code key).2.1 a k = peek s a k := by
  unfold apply_msg_core at h0 ⊢
  cases htv : msg.transfers_value with
  | false =>
    simp only [htv, Bool.false_eq_true, if_false] at h0 ⊢
    have h0' : (runner Facade.real s eve msg code).1.1 = 0 := by
      rw [apply_msg_finish_fst] at h0
      exact h0
    exact apply_msg_finish_atomic cfg runner s eve msg code key s (reaches_refl s)
      (hrun s eve) h0' a k
  | true =>
    simp only [htv, if_true] at h0 ⊢
    by_cases hb : big_endian_to_int
        (extGet Facade.real s (cfg.match_shard cfg.ETHER msg.sender) msg.sender).1 < msg.value
    · rw [if_pos hb] at h0
      exact absurd h0 one_ne_zero
    · rw [if_neg hb] at h0 ⊢
      by_cases hv : msg.value ≠ 0
      · rw [if_pos hv] at h0 ⊢
        rw [apply_msg_finish_fst] at h0
        refine apply_msg_finish_atomic cfg runner _ eve msg code key s ?_ (hrun _ eve) h0 a k
        exact reaches_trans (reaches_get _ _ _)
          (reaches_trans (reaches_get _ _ _)
            (reaches_trans (reaches_set _ _ _ _)
              (reaches_trans (reaches_get _ _ _) (reaches_set _ _ _ _))))
      · rw [if_neg hv] at h0 ⊢
        rw [apply_msg_finish_fst] at h0
        exact apply_msg_finish_atomic cfg runner _ eve msg code key s
          (reaches_get _ _ _) (hrun _ eve) h0 a k

/-- C2 counterexample: a call through the real (state-mutating) façade
does NOT leave the memo unchanged: starting from an empty `eve_cache`, the
key is mapped afterwards. -/
theorem apply_msg_real_facade_writes_memo :
    eveLookup (apply_msg cfgT runnerOk Facade.real emptyState [] msgPlain []).2.2
      (cache_key msgPlain []) = some (2, 1, []) := by decide

/-- C2 (amended): `apply_msg` records its returned triple in `eve_cache`
under `(sender, to, value, data, code)` on every invocation that is not an
empty-façade cache hit and not an insufficient-balance early return,
regardless of the façade; consequently a later empty-façade call with the
same key can observe a result produced under a state-mutating façade. -/
theorem apply_msg_memoizes_any_facade (cfg : Config) (runner : Runner) (fac : Facade)
    (s : EthState) (eve : EveMap) (msg : Msg) (code : Bytes)
    (hnc : ¬ (fac = Facade.empty ∧ (eveLookup eve (cache_key msg code)).isSome = true))
    (hbal : msg.transfers_value = true →
      msg.value ≤ big_endian_to_int
        (extGet fac s (cfg.match_shard cfg.ETHER msg.sender) msg.sender).1) :
    eveLookup (apply_msg cfg runner fac s eve msg code).2.2 (cache_key msg code)
      = some (apply_msg cfg runner fac s eve msg code).1 := by
  unfold apply_msg
  by_cases hf : fac = Facade.empty
  · rw [if_pos hf]
    cases hl : eveLookup eve (cache_key msg code) with
    | some t => exact absurd ⟨hf, by rw [hl]; rfl⟩ hnc
    | none => exact apply_msg_core_memo _ _ _ _ _ _ _ _ hbal
  · rw [if_neg hf]
    exact apply_msg_core_memo _ _ _ _ _ _ _ _ hbal

theorem apply_msg_memoizes_any_facade_witness :
    eveLookup (apply_msg cfgT runnerOk Facade.real emptyState [] msgPlain []).2.2
      (cache_key msgPlain [])
      = some (apply_msg cfgT runnerOk Facade.real emptyState [] msgPlain []).1 :=
  apply_msg_memoizes_any_facade cfgT runnerOk Facade.real emptyState [] msgPlain []
    (by decide) (by decide)

/-- C3 counterexample: with insufficient sender balance, `apply_msg`
returns the failed status 1 together with the message's full gas, not
zero. -/
theorem apply_msg_soft_fail_keeps_gas :
    (apply_msg cfgT runnerOk Facade.real emptyState [] msgVal []).1.1 = 1 ∧
    (apply_msg cfgT runnerOk Facade.real emptyState [] msgVal []).1.2.1 ≠ 0 := by decide

/-- C3 (amended): for every call to `apply_msg` that returns status 0
(revert), the gas component of the returned triple is zero; the soft
failure status 1 instead carries `msg.gas` unconsumed.  The `eveWF`
hypothesis states that memoized status-0 triples carry gas 0, which is
what `apply_msg` itself always inserts starting from the empty
process-wide memo. -/
theorem apply_msg_revert_gas_zero (cfg : Config) (runner : Runner) (fac : Facade)
    (s : EthState) (eve : EveMap) (msg : Msg) (code : Bytes) (hwf : eveWF eve)
    (h0 : (apply_msg cfg runner fac s eve msg code).1.1 = 0) :
    (apply_msg cfg runner fac s eve msg code).1.2.1 = 0 := by
  unfold apply_msg at h0 ⊢
  by_cases hf : fac = Facade.empty
  · rw [if_pos hf] at h0 ⊢
    cases hl : eveLookup eve (cache_key msg code) with
    | some t =>
      rw [hl] at h0
      exact hwf _ t hl h0
    | none =>
      rw [hl] at h0
      exact apply_msg_core_gas0 _ _ _ _ _ _ _ _ h0
  · rw [if_neg hf] at h0 ⊢
    exact apply_msg_core_gas0 _ _ _ _ _ _ _ _ h0

theorem apply_msg_revert_gas_zero_witness :
    (apply_msg cfgT runnerRevert Facade.real emptyState [] msgPlain []).1.2.1 = 0 :=
  apply_msg_revert_gas_zero cfgT runnerRevert Facade.real emptyState [] msgPlain []
    (by intro k t h; simp [eveLookup] at h) (by decide)

/-- C6: every call to `apply_msg` through the real façade that returns
status 0 leaves every `get_storage` observation as it was at the snapshot
taken at the start of the call: the value transfer and all storage
operations of the dispatched special/VM execution are undone.  `hrun`
states that the dispatch touches the state only through the façade's
storage interface. -/
theorem apply_msg_status0_atomic (cfg : Config) (runner : Runner) (s : EthState)
    (eve : EveMap) (msg : Msg) (code : Bytes)
    (hrun : ∀ s' e', ∃ ops, (runner Facade.real s' e' msg code).2.1 = applyOps s' ops)
    (h0 : (apply_msg cfg runner Facade.real s eve msg code).1.1 = 0) (a k : Bytes) :
    (get_storage (apply_msg cfg runner Facade.real s eve msg code).2.1 a k).1
      = (get_storage s a k).1 := by
  rw [get_storage_fst, get_storage_fst]
  unfold apply_msg at h0 ⊢
  rw [if_neg (by simp)] at h0 ⊢
  exact apply_msg_core_atomic _ _ _ _ _ _ _ hrun h0 a k

theorem apply_msg_status0_atomic_witness :
    (get_storage (apply_msg cfgT runnerRevert Facade.real stateT [] msgPlain []).2.1
      [10] (encode_int32 1)).1 = (get_storage stateT [10] (encode_int32 1)).1 :=
  apply_msg_status0_atomic cfgT runnerRevert stateT [] msgPlain []
    (fun s' _ => ⟨[Op.set [1] [2] [3]], rfl⟩) (by decide) [10] (encode_int32 1)

/-! ## The RNG-seed update -/

theorem update_rng_seed_peek (cfg : Config) (s : EthState) (blknumber : Nat)
    (blkproposer : Bytes) :
    peek (update_rng_seed cfg s blknumber blkproposer) cfg.RNGSEEDS (encode_int32 blknumber)
      = encode_int32
          (big_endian_to_int (cfg.sha3
              ((if blknumber ≠ 0 then peek s cfg.RNGSEEDS (encode_int32 (blknumber - 1))
                else List.replicate 32 0) ++ blkproposer))
            - big_endian_to_int (cfg.sha3
              ((if blknumber ≠ 0 then peek s cfg.RNGSEEDS (encode_int32 (blknumber - 1))
                else List.replicate 32 0) ++ blkproposer)) % 2 ^ 64
            + big_endian_to_int (peek s cfg.CASPER (encode_int32 0))) := by
  unfold update_rng_seed
  by_cases hb : blknumber ≠ 0
  · simp only [if_pos hb]
    rw [peek_set, if_pos ⟨rfl, rfl⟩, get_storage_fst, get_storage_fst, peek_get]
  · simp only [if_neg hb]
    rw [peek_set, if_pos ⟨rfl, rfl⟩, get_storage_fst]

/-- C8: the new RNG seed written at `(RNGSEEDS, blknumber)` equals
`sha3(prevseed ‖ blkproposer)` read as a big-endian integer with its low
64 bits cleared and set to the integer stored at `(CASPER, 0)` (which
holds the validator count, hence fits 64 bits), where `prevseed` is the
seed at `(RNGSEEDS, blknumber − 1)`, or 32 zero bytes when
`blknumber = 0`; the remaining upper bits of the stored seed equal those
of the hash. -/
theorem rng_seed_bit_layout (cfg : Config) (s : EthState) (blknumber : Nat)
    (blkproposer : Bytes)
    (hcas : big_endian_to_int (peek s cfg.CASPER (encode_int32 0)) < 2 ^ 64) :
    big_endian_to_int (peek (update_rng_seed cfg s blknumber blkproposer)
        cfg.RNGSEEDS (encode_int32 blknumber)) % 2 ^ 64
      = big_endian_to_int (peek s cfg.CASPER (encode_int32 0)) ∧
    big_endian_to_int (peek (update_rng_seed cfg s blknumber blkproposer)
        cfg.RNGSEEDS (encode_int32 blknumber)) / 2 ^ 64
      = big_endian_to_int (cfg.sha3
          ((if blknumber ≠ 0 then peek s cfg.RNGSEEDS (encode_int32 (blknumber - 1))
            else List.replicate 32 0) ++ blkproposer)) / 2 ^ 64 := by
  rw [update_rng_seed_peek, big_endian_to_int_encode_int32]
  have h64 : (2 : Nat) ^ 64 = 18446744073709551616 := by norm_num
  rw [h64] at hcas ⊢
  omega

theorem rng_seed_bit_layout_witness :
    big_endian_to_int (peek (update_rng_seed cfgT emptyState 0 [1])
        cfgT.RNGSEEDS (encode_int32 0)) % 2 ^ 64
      = big_endian_to_int (peek emptyState cfgT.CASPER (encode_int32 0)) ∧
    big_endian_to_int (peek (update_rng_seed cfgT emptyState 0 [1])
        cfgT.RNGSEEDS (encode_int32 0)) / 2 ^ 64
      = big_endian_to_int (cfgT.sha3
          ((if (0 : Nat) ≠ 0 then peek emptyState cfgT.RNGSEEDS (encode_int32 (0 - 1))
            else List.replicate 32 0) ++ [1])) / 2 ^ 64 :=
  rng_seed_bit_layout cfgT emptyState 0 [1] (by decide)

/-! ## The pre-check skip paths of `tx_state_transition` -/

theorem skip_state_spec (s s2 sF : EthState) (EX LOGA kI kT kG L0 nextT : Bytes)
    (hs2 : s2 = (get_storage (get_storage s EX kT).2 EX kG).2)
    (hsF : sF = set_storage (set_storage s2 LOGA kI L0) EX kT nextT)
    (hne : LOGA ≠ EX) (hkk : kT ≠ kG) :
    peek sF LOGA kI = L0 ∧
    peek sF EX kT = nextT ∧
    peek sF EX kG = peek s EX kG ∧
    ∀ a k, ¬ (a = LOGA ∧ k = kI) → ¬ (a = EX ∧ k = kT) → peek sF a k = peek s a k := by
  subst hs2
  subst hsF
  refine ⟨?_, ?_, ?_, ?_⟩
  · rw [peek_set, if_neg (fun h => hne h.1), peek_set, if_pos ⟨rfl, rfl⟩]
  · rw [peek_set, if_pos ⟨rfl, rfl⟩]
  · rw [peek_set, if_neg (fun h => hkk h.2.symm), peek_set,
      if_neg (fun h => hne h.1.symm), peek_get, peek_get]
  · intro a k h1 h2
    rw [peek_set, if_neg (fun h => h2 ⟨h.1, h.2⟩), peek_set,
      if_neg (fun h => h1 ⟨h.1, h.2⟩), peek_get, peek_get]

/-- C7: on a pre-check skip of `tx_state_transition` (insufficient gas
remaining, or recipient shard out of range), the only storage changes are
the log slot `(_LOG, txindex)` set to the RLP encoding of `[0]` and
`(_EXSTATE, TXINDEX)` incremented by one; `(_EXSTATE, GAS_REMAINING)` and
every other storage location are unchanged, and the memo is returned
untouched. -/
theorem tx_skip_frame (cfg : Config) (runner : Runner) (s : EthState) (eve : EveMap)
    (tx : Tx) (lb rb og : Nat) (EX LOGA : Bytes)
    (hEX : EX = cfg.shardify cfg.EXECUTION_STATE lb)
    (hLOG : LOGA = cfg.shardify cfg.LOG lb)
    (hne : LOGA ≠ EX)
    (hkey : encode_int32 cfg.TXINDEX ≠ encode_int32 cfg.GAS_REMAINING)
    (hskip : big_endian_to_int (peek s EX (encode_int32 cfg.GAS_REMAINING)) < tx.exec_gas ∨
      ¬ (lb ≤ cfg.get_shard tx.addr ∧ cfg.get_shard tx.addr < rb)) :
    ∃ sF, tx_state_transition cfg runner s eve tx lb rb og = Except.ok (none, sF, eve) ∧
      peek sF LOGA (encode_int32 (big_endian_to_int (peek s EX (encode_int32 cfg.TXINDEX))))
        = rlp_encode_list [encode_int 0] ∧
      peek sF EX (encode_int32 cfg.TXINDEX)
        = encode_int32 (big_endian_to_int (peek s EX (encode_int32 cfg.TXINDEX)) + 1) ∧
      peek sF EX (encode_int32 cfg.GAS_REMAINING)
        = peek s EX (encode_int32 cfg.GAS_REMAINING) ∧
      ∀ a k,
        ¬ (a = LOGA ∧
            k = encode_int32 (big_endian_to_int (peek s EX (encode_int32 cfg.TXINDEX)))) →
        ¬ (a = EX ∧ k = encode_int32 cfg.TXINDEX) →
        peek sF a k = peek s a k := by
  subst hEX
  subst hLOG
  simp only [tx_state_transition]
  have e1 : (get_storage s (cfg.shardify cfg.EXECUTION_STATE lb)
      (encode_int32 cfg.TXINDEX)).1
      = peek s (cfg.shardify cfg.EXECUTION_STATE lb) (encode_int32 cfg.TXINDEX) :=
    get_storage_fst _ _ _
  have e2 : (get_storage (get_storage s (cfg.shardify cfg.EXECUTION_STATE lb)
        (encode_int32 cfg.TXINDEX)).2 (cfg.shardify cfg.EXECUTION_STATE lb)
      (encode_int32 cfg.GAS_REMAINING)).1
      = peek s (cfg.shardify cfg.EXECUTION_STATE lb) (encode_int32 cfg.GAS_REMAINING) := by
    rw [get_storage_fst, peek_get]
  rw [e1, e2]
  by_cases hg : big_endian_to_int (peek s (cfg.shardify cfg.EXECUTION_STATE lb)
      (encode_int32 cfg.GAS_REMAINING)) < tx.exec_gas
  · rw [if_pos hg]
    exact ⟨_, rfl, skip_state_spec s _ _ _ _ _ _ _ _ _ rfl rfl hne hkey⟩
  · rw [if_neg hg]
    have hsh : ¬ (lb ≤ cfg.get_shard tx.addr ∧ cfg.get_shard tx.addr < rb) := by
      rcases hskip with h | h
      · exact absurd h hg
      · exact h
    rw [if_pos hsh]
    exact ⟨_, rfl, skip_state_spec s _ _ _ _ _ _ _ _ _ rfl rfl hne hkey⟩

theorem tx_skip_frame_witness :
    ∃ sF, tx_state_transition cfgT runnerOk stateT [] txPlain 1 2 (2 ^ 255)
        = Except.ok (none, sF, []) ∧
      peek sF (cfgT.shardify cfgT.LOG 1)
        (encode_int32 (big_endian_to_int (peek stateT (cfgT.shardify cfgT.EXECUTION_STATE 1)
          (encode_int32 cfgT.TXINDEX))))
        = rlp_encode_list [encode_int 0] ∧
      peek sF (cfgT.shardify cfgT.EXECUTION_STATE 1) (encode_int32 cfgT.TXINDEX)
        = encode_int32 (big_endian_to_int (peek stateT (cfgT.shardify cfgT.EXECUTION_STATE 1)
            (encode_int32 cfgT.TXINDEX)) + 1) ∧
      peek sF (cfgT.shardify cfgT.EXECUTION_STATE 1) (encode_int32 cfgT.GAS_REMAINING)
        = peek stateT (cfgT.shardify cfgT.EXECUTION_STATE 1)
            (encode_int32 cfgT.GAS_REMAINING) ∧
      ∀ a k,
        ¬ (a = cfgT.shardify cfgT.LOG 1 ∧
            k = encode_int32 (big_endian_to_int (peek stateT
              (cfgT.shardify cfgT.EXECUTION_STATE 1) (encode_int32 cfgT.TXINDEX)))) →
        ¬ (a = cfgT.shardify cfgT.EXECUTION_STATE 1 ∧ k = encode_int32 cfgT.TXINDEX) →
        peek sF a k = peek stateT a k :=
  tx_skip_frame cfgT runnerOk stateT [] txPlain 1 2 (2 ^ 255) _ _ rfl rfl
    (by decide) (by decide) (Or.inr (by decide))

/-! ## The final execution step and its log status byte -/

/-- C4 counterexample: a full `tx_state_transition` run whose (only)
`apply_msg` returns the soft-failure status 1 — recorded as `(1, 3, [])`
in the memo — still prepends status byte 2 to the log
(`[193, 2] = rlp_insert0 RLPEMPTYLIST (encode_int 2)`), not 1. -/
theorem tx_final_log_status_counterexample :
    txOutcome (tx_state_transition cfgT runnerSoft stateT [] txPlain 0 1 (2 ^ 255))
        [11] (encode_int32 0) [0, 20, 48]
      = some (some [], [193, 2], some (1, 3, [])) ∧
    rlp_insert0 RLPEMPTYLIST (encode_int 1) ≠ [193, 2] := by decide

/-- C4 (amended): whenever `tx_state_transition` reaches the final
execution step (carried out by `tx_final_step`), the status byte prepended
to the log at `(_LOG, txindex)` is 2 iff `apply_msg` returned a nonzero
status — including the soft-failure status 1, which the source's truthy
test `2 if result else 1` treats like success — and is 1 iff `apply_msg`
returned status 0. -/
theorem tx_final_log_status (cfg : Config) (runner : Runner) (s : EthState) (eve : EveMap)
    (tx : Tx) (EX LOGA : Bytes) (txindex gas_remaining esg : Nat)
    (logA : Bytes) (s1 : EthState) (codeNow : Bytes) (s2 : EthState)
    (res gasr : Nat) (dat : Bytes) (s3 : EthState) (eve1 : EveMap)
    (hA : get_storage s LOGA (encode_int32 txindex) = (logA, s1))
    (hAe : logA = RLPEMPTYLIST)
    (hB : get_code cfg s1 tx.addr = (codeNow, s2))
    (hC : apply_msg cfg runner Facade.real s2 eve
      { sender := cfg.NULL_SENDER, toAddr := tx.addr, value := 0, gas := esg,
        data := tx.data, transfers_value := true } codeNow = ((res, gasr, dat), s3, eve1))
    (hD : gasr ≤ esg ∧ esg ≤ tx.exec_gas)
    (hne : LOGA ≠ EX) :
    ∃ sF, tx_final_step cfg runner s eve tx EX LOGA txindex gas_remaining esg
        = Except.ok (some dat, sF, eve1) ∧
      (res ≠ 0 → peek sF LOGA (encode_int32 txindex)
        = rlp_insert0 (peek s3 LOGA (encode_int32 txindex)) (encode_int 2)) ∧
      (res = 0 → peek sF LOGA (encode_int32 txindex)
        = rlp_insert0 (peek s3 LOGA (encode_int32 txindex)) (encode_int 1)) := by
  subst hAe
  simp only [tx_final_step, hA, hB, hC]
  rw [if_neg (by simp), if_neg (fun h => h hD)]
  refine ⟨_, rfl, ?_, ?_⟩
  · intro hres
    rw [if_pos hres, peek_set, if_neg (fun h => hne h.1), peek_set, if_pos ⟨rfl, rfl⟩,
      get_storage_fst, peek_set, if_neg (fun h => hne h.1)]
  · intro hres
    rw [if_neg (by simp [hres]), peek_set, if_neg (fun h => hne h.1), peek_set,
      if_pos ⟨rfl, rfl⟩, get_storage_fst, peek_set, if_neg (fun h => hne h.1)]

theorem tx_final_log_status_witness :
    ∃ sF, tx_final_step cfgT runnerSoft stateLogT [] txPlain [10] [11] 0 100 10
        = Except.ok (some [], sF, [([0, 20, 48], (1, 3, []))]) ∧
      ((1 : Nat) ≠ 0 → peek sF [11] (encode_int32 0)
        = rlp_insert0 [192] (encode_int 2)) ∧
      ((1 : Nat) = 0 → peek sF [11] (encode_int32 0)
        = rlp_insert0 [192] (encode_int 1)) :=
  tx_final_log_status cfgT runnerSoft stateLogT [] txPlain [10] [11] 0 100 10
    RLPEMPTYLIST _ [] _ 1 3 [] _ [([0, 20, 48], (1, 3, []))]
    rfl rfl rfl rfl (by decide) (by decide)

/-! ## The deployment path and the log-placeholder assert -/

/-- C10 counterexample: a deployment whose constructor writes to the
current shard's `(_LOG, txindex)` slot — `runnerLogSame` writes
`RLPEMPTYLIST` there — does NOT make `tx_state_transition` raise the
assertion: the run completes and returns the deployed-call data. -/
theorem tx_deploy_log_write_passes :
    txOutcome (tx_state_transition cfgT runnerLogSame stateT [] txDeploy 0 1 (2 ^ 255))
        [11] (encode_int32 0) [0, 20, 48, 1]
      = some (some [7], [193, 2], some (2, 4, [7])) ∧
    txDeploy.code ≠ [] := by decide

/-- C10 (amended): on the non-skip path, after a successful deployment
call the code asserts that the log slot `(_LOG, txindex)` still holds the
RLP encoding of the empty list; a deployment whose constructor execution
leaves any other value in that slot makes `tx_state_transition` fail with
the fatal log assertion instead of completing with a failure log, while a
constructor write of the empty-list encoding itself passes the assert. -/
theorem tx_deploy_log_assert (cfg : Config) (runner : Runner) (s : EthState) (eve : EveMap)
    (tx : Tx) (lb rb og : Nat) (EX LOGA : Bytes)
    (g1v : Bytes) (s1 : EthState) (g2v : Bytes) (s2 : EthState)
    (s3 s4 : EthState) (cs : Bytes) (s5 : EthState)
    (res esg : Nat) (dat : Bytes) (s6 : EthState) (eve1 : EveMap) (s7 : EthState)
    (hEX : EX = cfg.shardify cfg.EXECUTION_STATE lb)
    (hLOG : LOGA = cfg.shardify cfg.LOG lb)
    (h1 : get_storage s EX (encode_int32 cfg.TXINDEX) = (g1v, s1))
    (h2 : get_storage s1 EX (encode_int32 cfg.GAS_REMAINING) = (g2v, s2))
    (hgas : ¬ big_endian_to_int g2v < tx.exec_gas)
    (hsh : lb ≤ cfg.get_shard tx.addr ∧ cfg.get_shard tx.addr < rb)
    (h3 : set_storage s2 EX (encode_int32 cfg.TXGAS) (encode_int32 tx.gas) = s3)
    (h4 : set_storage s3 LOGA (encode_int32 (big_endian_to_int g1v)) RLPEMPTYLIST = s4)
    (hcode : tx.code ≠ [])
    (h5 : get_storage s4 tx.addr [] = (cs, s5))
    (hcs : cs = [])
    (h6 : apply_msg cfg runner Facade.real s5 eve
      { sender := cfg.NULL_SENDER, toAddr := tx.addr, value := 0,
        gas := min tx.exec_gas og, data := [], transfers_value := true } tx.code
      = ((res, esg, dat), s6, eve1))
    (hres : res ≠ 0)
    (h7 : put_code cfg s6 tx.addr dat = s7)
    (hlog : peek s7 LOGA (encode_int32 (big_endian_to_int g1v)) ≠ RLPEMPTYLIST) :
    tx_state_transition cfg runner s eve tx lb rb og
      = Except.error AssertTag.logAssert := by
  subst hEX
  subst hLOG
  subst hcs
  subst h3
  subst h4
  subst h7
  simp only [tx_state_transition, h1, h2]
  rw [if_neg hgas, if_neg (fun h => h hsh), if_pos hcode]
  simp only [h5, if_true]
  simp only [h6]
  rw [if_neg hres]
  simp only [tx_final_step]
  rw [get_storage_fst, if_pos hlog]

theorem tx_deploy_log_assert_witness :
    tx_state_transition cfgT runnerLogOther stateT [] txDeploy 0 1 (2 ^ 255)
      = Except.error AssertTag.logAssert :=
  tx_deploy_log_assert cfgT runnerLogOther stateT [] txDeploy 0 1 (2 ^ 255)
    _ _ [] _ (encode_int32 100) _ _ _ [] _ 2 4 [7] _
    [([0, 20, 48, 1], (2, 4, [7]))] _
    rfl rfl rfl rfl (by decide) (by decide) rfl rfl (by decide) rfl rfl rfl
    (by decide) rfl (by decide)

/-! ## Block structural validation -/

/-- C1: the explicit-mode constructor accepts the summary shard range
`[0, 3)` — `0 % 3 = 0` satisfies the only alignment assert the source
performs, and no power-of-two check exists — although `3 = 3 - 0` is not
a power of two, so the range is not a node of the binary tree over
`[0, MAXSHARDS)` (here `MAXSHARDS = 4`), contradicting the source's own
comment and the spec's binary-tree alignment requirement. -/
theorem block_accepts_non_pow2_range :
    block_checks 4 100 (fun _ => [1]) (fun _ => [2]) [2]
      [{ gas_limit := 100, left_bound := 0, right_bound := 3, transaction_hash := [1] }]
      [[]] = true ∧
    isPow2 (3 - 0) = false := by decide

theorem zip_append_of_le {α β : Type} (l1 : List α) (l2 l3 : List β)
    (h : l1.length ≤ l2.length) : l1.zip (l2 ++ l3) = l1.zip l2 := by
  induction l1 generalizing l2 with
  | nil => simp
  | cons a l1 ih =>
    cases l2 with
    | nil => simp at h
    | cons b l2 =>
      show (a, b) :: l1.zip (l2 ++ l3) = (a, b) :: l1.zip l2
      rw [ih l2 (by simpa using h)]

/-- C9: when `transaction_groups` is at least as long as `summaries`, the
per-pair invariant checks of explicit-mode `Block.__init__` are applied
only to the `zip`ped common prefix: transaction groups beyond the summary
list escape validation entirely and have no effect on the construction
outcome, so construction can still succeed (provided the header txroot
matches the full summary list) no matter what the extra groups contain. -/
theorem block_checks_ignore_extra_groups (M G : Nat) (gh : List Tx → Bytes)
    (sh : List Summary → Bytes) (txroot : Bytes) (summaries : List Summary)
    (groups extra : List (List Tx)) (h : summaries.length ≤ groups.length) :
    block_checks M G gh sh txroot summaries (groups ++ extra)
      = block_checks M G gh sh txroot summaries groups := by
  unfold block_checks
  rw [zip_append_of_le summaries groups extra h, decide_eq_true h,
    decide_eq_true (le_trans h (by simp))]

theorem block_checks_ignore_extra_groups_witness :
    block_checks 4 100 (fun _ => [1]) (fun _ => [2]) [2] []
        ([] ++ [[{ addr := [20], code := [], data := [], gas := 1, exec_gas := 10,
                   intrinsic_gas := 0, left_bound := 5, right_bound := 3 }]])
      = block_checks 4 100 (fun _ => [1]) (fun _ => [2]) [2] [] [] :=
  block_checks_ignore_extra_groups 4 100 (fun _ => [1]) (fun _ => [2]) [2] [] []
    [[{ addr := [20], code := [], data := [], gas := 1, exec_gas := 10,
        intrinsic_gas := 0, left_bound := 5, right_bound := 3 }]] (by decide)

/-- C9 counterexample: with one (perfectly valid) summary and no
transaction group, the per-pair checks are skipped, the header txroot
matches the full summary list, yet construction fails: the gas-limit sum
reads `s.intrinsic_gas` of the unpaired summary, which the zip loop never
assigned (`AttributeError` in the source, the length conjunct here). -/
theorem block_extra_summary_fails :
    block_checks 4 100 (fun _ => [1]) (fun _ => [2]) [2]
      [{ gas_limit := 100, left_bound := 0, right_bound := 4, transaction_hash := [1] }]
      [] = false := by decide
